import Mathlib

/-!
# Verification of the wallet-tracker correlation and notification engine

Shallow embedding of the core of the `Solana-Telegram-Bot` repository:

* the cross-wallet correlation state machine (`MonitorSmallWallets`, in two
  repository variants),
* the bounded discovery store (`trackNewWallet` / `trackUpdateWallet`),
* the debounce/batching layer (`batchTokenUpdate` and its flush callback),
* the dispatch rate limiter (`waitForRateLimit` / `handleRateLimitError`),
* the market-cap formatter (`changeStyle`).

JavaScript `Map`s are modelled as insertion-ordered association lists (or as
plain functions when iteration order is irrelevant), JavaScript numbers as
`Int`/`Nat`/`Rat` with the IEEE-754 corner cases (`NaN`, infinities) made
explicit where a claim depends on them, and the event loop's timers as
explicit deadline fields.  External collaborators (RPC queries, token
metadata, the Telegram transport) are treated as opaque inputs.
-/

/-- Association-list model of a JavaScript `Map` in insertion order:
`set` on an existing key replaces the value in place, `set` on a fresh key
appends, `delete` removes the entry, iteration is list order. -/
def jsSet {κ α : Type} [DecidableEq κ] (m : List (κ × α)) (k : κ) (v : α) :
    List (κ × α) :=
  if m.any (fun p => decide (p.1 = k)) then
    m.map (fun p => if p.1 = k then (k, v) else p)
  else m ++ [(k, v)]

/-- `Map.prototype.get`: the value at `k`, if present. -/
def jsLookup {κ α : Type} [DecidableEq κ] (m : List (κ × α)) (k : κ) : Option α :=
  (m.find? (fun p => decide (p.1 = k))).map Prod.snd

/-- `Map.prototype.delete`. -/
def jsDelete {κ α : Type} [DecidableEq κ] (m : List (κ × α)) (k : κ) :
    List (κ × α) :=
  m.filter (fun p => decide (¬ p.1 = k))

/-! ## Correlation state machine (`MonitorSmallWallets`)

The `pumpfunTokens` map sends a token address to a number:
`-1` marks a permanently ignored (self-referencing) token, `1`/`2` mark a
token observed from that main wallet, `3` marks a confirmed token.  Only
`get`/`set` are used on it, so it is modelled as a plain function. -/

/-- The `pumpfunTokens` map: token address to state number (absent = unseen). -/
def TokenMap := String → Option Int

/-- `pumpfunTokens.set`. -/
def tmSet (m : TokenMap) (k : String) (v : Int) : TokenMap :=
  fun k2 => if k2 = k then some v else m k2

/-- The externally observable outcome of one `MonitorSmallWallets` callback
run, following the spec's action vocabulary: `ignore` for the self-reference
branch, `confirm` for the alert branch, `track` for the record-only branch,
`noop` when no branch fires. -/
inductive CorrAction where
  | ignore
  | confirm
  | track
  | noop
deriving DecidableEq

/-- Result of one correlation step: the updated map, the action taken, and
whether a Telegram notification was sent. -/
structure CorrResult where
  state : TokenMap
  act : CorrAction
  notified : Bool

/-- One run of the `onLogs` callback body of `MonitorSmallWallets` from
`src/unnamed/part_004` lines 320-348 (identical in `src/unnamed/part_003`),
for a log event whose transaction resolved to token address `ca`, observed
while watching a small wallet discovered from main wallet `id`.
`tmpAnother = 3 - id` is the other main wallet's id.  The confirm branch
calls `sendTelegramNotification` (external transport, assumed to succeed),
hence `notified := true` there. -/
def monitorSmallWalletsStep (main1 main2 : String) (s : TokenMap) (id : Int)
    (ca : String) : CorrResult :=
  if ca = main1 ∨ ca = main2 then ⟨tmSet s ca (-1), .ignore, false⟩
  else if s ca = some (3 - id) ∨ s ca = some 3 then ⟨tmSet s ca 3, .confirm, true⟩
  else if s ca ≠ some (-1) then ⟨tmSet s ca id, .track, false⟩
  else ⟨s, .noop, false⟩

/-- The variant of `MonitorSmallWallets` in `src/src/utils/index.ts` lines
341-362: the middle branch tests `pumpfunTokens.get(CA_ADDRESS) === id`
(the *same* wallet id) instead of `=== 3 - id`, and its confirm branch only
calls `getTokenInfo` and logs a `TG alert` line — it never calls
`sendTelegramNotification`, hence `notified := false` on every branch. -/
def monitorSmallWalletsStepIdx (main1 main2 : String) (s : TokenMap) (id : Int)
    (ca : String) : CorrResult :=
  if ca = main1 ∨ ca = main2 then ⟨tmSet s ca (-1), .ignore, false⟩
  else if s ca = some id ∨ s ca = some 3 then ⟨tmSet s ca 3, .confirm, false⟩
  else if s ca ≠ some (-1) then ⟨tmSet s ca id, .track, false⟩
  else ⟨s, .noop, false⟩

/-- `pumpfunTokens` maps reachable by running `MonitorSmallWallets` callbacks
(part_003/part_004 variant) from the initially empty map; the callback is
only ever installed for the two main wallets, so `id` is `1` or `2`. -/
inductive CorrReachable (main1 main2 : String) : TokenMap → Prop where
  | init : CorrReachable main1 main2 (fun _ => none)
  | step (s : TokenMap) (id : Int) (ca : String) (hid : id = 1 ∨ id = 2)
      (h : CorrReachable main1 main2 s) :
      CorrReachable main1 main2 (monitorSmallWalletsStep main1 main2 s id ca).state

/-! ## Bounded discovery store (`trackNewWallet` / `trackUpdateWallet`)

From `src/unnamed/part_004` lines 252-299 (identical in
`src/unnamed/part_003`).  `trackedWallets_1`/`trackedWallets_2` are
`Map<string, WalletTrack>` keyed by the tracked address. -/

/-- The `WalletTrack` record stored for each discovered address. -/
structure WalletTrack where
  address : String
  timestamp : Nat
deriving DecidableEq

/-- A per-main-wallet discovery store, in `Map` insertion order. -/
def WalletMap := List (String × WalletTrack)
deriving DecidableEq

/-- The `reduce` callback of `trackNewWallet`: keep the entry with the
strictly smaller timestamp, else keep the accumulator (so the first minimal
entry in iteration order wins ties). -/
def oldestFold (a b : String × WalletTrack) : String × WalletTrack :=
  if b.2.timestamp < a.2.timestamp then b else a

/-- `Array.from(walletMap.entries()).reduce(...)` on the non-empty map
`x :: xs`: a `reduce` with no initial value starts from the first element. -/
def oldestEntry (x : String × WalletTrack) (xs : WalletMap) :
    String × WalletTrack :=
  xs.foldl oldestFold x

/-- `trackNewWallet` (`src/unnamed/part_004` lines 252-281) acting on the
selected store: when the store has reached capacity `N`
(`TRACKED_WALLETS_SIZE`), delete the entry found by the `reduce`, then insert
`{address, timestamp: Date.now()}`.  On an empty store the capacity branch's
`reduce` throws (`reduce` of an empty array with no initial value); the
surrounding `try/catch` swallows the error, so the store is left unchanged
and the insert is skipped. -/
def trackNewWallet (N : Nat) (m : WalletMap) (address : String) (now : Nat) :
    WalletMap :=
  if N ≤ m.length then
    match m with
    | [] => []
    | x :: xs => jsSet (jsDelete m (oldestEntry x xs).1) address ⟨address, now⟩
  else jsSet m address ⟨address, now⟩

/-- Folding a sequence of `trackNewWallet` calls (address, timestamp pairs)
over one store, starting from the given store. -/
def trackNewWalletSeq (N : Nat) (m : WalletMap) (calls : List (String × Nat)) :
    WalletMap :=
  calls.foldl (fun st c => trackNewWallet N st c.1 c.2) m

/-- The two discovery stores of the tracker. -/
structure DiscoveryState where
  trackedWallets_1 : WalletMap
  trackedWallets_2 : WalletMap
deriving DecidableEq

/-- `trackUpdateWallet` (`src/unnamed/part_004` lines 283-299): two
independent `if` statements write `{address, timestamp: Date.now()}` into
store 1 when `wallet_id === 1` and into store 2 when `wallet_id === 2`;
any other id touches nothing.  There is no capacity check and no eviction. -/
def trackUpdateWallet (s : DiscoveryState) (wallet_id : Int) (address : String)
    (now : Nat) : DiscoveryState :=
  let s1 :=
    if wallet_id = 1 then
      { s with trackedWallets_1 := jsSet s.trackedWallets_1 address ⟨address, now⟩ }
    else s
  if wallet_id = 2 then
    { s1 with trackedWallets_2 := jsSet s1.trackedWallets_2 address ⟨address, now⟩ }
  else s1

/-- The store selected by `wallet_id === 1 ? trackedWallets_1 : trackedWallets_2`. -/
def storeOf (s : DiscoveryState) (wallet_id : Int) : WalletMap :=
  if wallet_id = 1 then s.trackedWallets_1 else s.trackedWallets_2

/-- The other main wallet's store (the one `wallet_id` does not select). -/
def otherStoreOf (s : DiscoveryState) (wallet_id : Int) : WalletMap :=
  if wallet_id = 1 then s.trackedWallets_2 else s.trackedWallets_1

/-! ## Debounce/batching layer (`batchTokenUpdate`)

From `src/src/utils/index.ts` lines 513-584.  Balances are JavaScript
numbers used only with `===`, `> 0` and `toFixed` here, modelled as `Rat`.
The `setTimeout` handle is modelled by its deadline (call time plus
`UPDATE_DELAY`); `clearTimeout` discards the old deadline. -/

/-- `UPDATE_DELAY = 10000` ms. -/
def UPDATE_DELAY : Int := 10000

/-- A pending balance update, keyed by token mint in the per-wallet map. -/
structure PendingUpdate where
  balance : Rat
  signature : String
deriving DecidableEq

/-- The batching state of the tracker: `pendingUpdates` and `updateTimeouts`
are keyed by wallet number; `trackedWallets_1`/`trackedWallets_2` are the
per-wallet last-known-balance maps (`Map<string, number>` in this file). -/
structure BatcherState where
  pendingUpdates : List (Int × List (String × PendingUpdate))
  updateTimeouts : List (Int × Int)
  trackedWallets_1 : List (String × Rat)
  trackedWallets_2 : List (String × Rat)
deriving DecidableEq

/-- `batchTokenUpdate` (lines 513-527 and 581-583): ensure the wallet's
pending map exists, overwrite the entry for `tokenMint`, clear any existing
timeout and set a fresh one `UPDATE_DELAY` ms from now. -/
def batchTokenUpdate (s : BatcherState) (now : Int) (walletNumber : Int)
    (tokenMint : String) (balance : Rat) (signature : String) : BatcherState :=
  let pending0 :=
    if (jsLookup s.pendingUpdates walletNumber).isSome then s.pendingUpdates
    else jsSet s.pendingUpdates walletNumber []
  let walletUpdates := (jsLookup pending0 walletNumber).getD []
  { s with
    pendingUpdates :=
      jsSet pending0 walletNumber (jsSet walletUpdates tokenMint ⟨balance, signature⟩),
    updateTimeouts := jsSet s.updateTimeouts walletNumber (now + UPDATE_DELAY) }

/-- The data determining one flushed Telegram message: the `newTokens` lines
(mint, new balance) and the `balanceChanges` lines (mint, previous balance,
new balance).  The displayed token name comes from `getTokenInfo` (external
metadata lookup), so the mint stands for the display string here. -/
structure FlushMessage where
  newTokens : List (String × Rat)
  balanceChanges : List (String × Rat × Rat)
deriving DecidableEq

/-- The `for (const [mint, { balance }] of updates)` loop of the flush
callback (lines 541-559): classify each update against the last known
balance (`previousBalance === 0 && balance > 0` is a new token, otherwise
`balance !== previousBalance` is a balance change), and update the
last-known-balance map as it goes. -/
def flushClassify (tracked : List (String × Rat))
    (updates : List (String × PendingUpdate)) :
    List (String × Rat) × List (String × Rat) × List (String × Rat × Rat) :=
  updates.foldl
    (fun acc u =>
      let previousBalance := (jsLookup acc.1 u.1).getD 0
      let nt :=
        if previousBalance = 0 ∧ 0 < u.2.balance then
          acc.2.1 ++ [(u.1, u.2.balance)]
        else acc.2.1
      let bc :=
        if ¬(previousBalance = 0 ∧ 0 < u.2.balance) ∧ u.2.balance ≠ previousBalance then
          acc.2.2 ++ [(u.1, previousBalance, u.2.balance)]
        else acc.2.2
      (jsSet acc.1 u.1 u.2.balance, nt, bc))
    (tracked, [], [])

/-- The `setTimeout` callback body of `batchTokenUpdate` (lines 528-580):
swap out the wallet's pending map, classify every entry, update the
last-known balances, send one combined message when any part is non-empty,
and finally delete the timeout handle.  A `some` result is a
`bot.sendMessage` call; `none` means nothing is sent. -/
def processBatchedUpdates (s : BatcherState) (walletNumber : Int) :
    BatcherState × Option FlushMessage :=
  let updates := (jsLookup s.pendingUpdates walletNumber).getD []
  let s1 := { s with pendingUpdates := jsSet s.pendingUpdates walletNumber [] }
  if updates.length ≠ 0 then
    let tracked :=
      if walletNumber = 1 then s.trackedWallets_1 else s.trackedWallets_2
    let r := flushClassify tracked updates
    let msg : Option FlushMessage :=
      if r.2.1.length ≠ 0 ∨ r.2.2.length ≠ 0 then some ⟨r.2.1, r.2.2⟩ else none
    let s2 :=
      if walletNumber = 1 then { s1 with trackedWallets_1 := r.1 }
      else { s1 with trackedWallets_2 := r.1 }
    ({ s2 with updateTimeouts := jsDelete s2.updateTimeouts walletNumber }, msg)
  else ({ s1 with updateTimeouts := jsDelete s1.updateTimeouts walletNumber }, none)

/-! ## Lifecycle guards around the batcher (`monitorTransactions` / `stopTracking`)

From `src/src/utils/index.ts` lines 298-309 and 613-691. -/

/-- Engine state relevant to the stop/dispatch claims: the `isTracking`
flag, the batcher, and the active subscription ids. -/
structure EngineState where
  isTracking : Bool
  batcher : BatcherState
  subscriptions : List Int
deriving DecidableEq

/-- The `onAccountChange` handler (lines 627-634): it returns immediately
when `isTracking` is false; otherwise `updateTokenBalances` re-reads the
wallet's token accounts (external RPC, passed in as `accounts`) and queues
each through `batchTokenUpdate` with a `refresh_` signature. -/
def walletChangeHandler (isTracking : Bool) (s : BatcherState) (now : Int)
    (walletNumber : Int) (accounts : List (String × Rat)) : BatcherState :=
  if isTracking then
    accounts.foldl
      (fun st a =>
        batchTokenUpdate st now walletNumber a.1 a.2
          ("refresh_" ++ toString (now / 1000)))
      s
  else s

/-- The `onProgramAccountChange` handler (lines 641-665): it returns
immediately when `isTracking` is false; otherwise, when the changed token
account's owner is the watched wallet, it queues the new balance through
`batchTokenUpdate` with the slot number as signature. -/
def tokenProgramHandler (isTracking : Bool) (s : BatcherState) (now : Int)
    (walletNumber : Int) (owner walletAddress tokenMint : String)
    (balance : Rat) (slot : Int) : BatcherState :=
  if isTracking then
    if owner = walletAddress then
      batchTokenUpdate s now walletNumber tokenMint balance (toString slot)
    else s
  else s

/-- The `/stop` command path (lines 163-172 and 298-309): set `isTracking`
to false, then `stopTracking` removes the account-change listeners for both
wallets.  Nothing clears `pendingUpdates` or `updateTimeouts`, and no
`clearTimeout` is issued for a pending debounce timer. -/
def stopTracking (e : EngineState) : EngineState :=
  { e with isTracking := false, subscriptions := [] }

/-! ## Dispatch rate limiter (`RateLimiter`)

From `src/src/utils/rateLimiter.ts`.  Times are millisecond timestamps
(`Date.now()`), modelled as `Int`.  `await`ing a `setTimeout` promise is
modelled by advancing the current time by the requested wait; the cooperative
loop is given explicit fuel and returns `none` when the fuel runs out, so
every proved fact is conditional on the loop having completed. -/

/-- `GLOBAL_LIMIT = 30` messages per second. -/
def GLOBAL_LIMIT : Nat := 30

/-- `CHAT_LIMIT = 1` message per second for individual chats. -/
def CHAT_LIMIT : Nat := 1

/-- `GROUP_LIMIT = 20` messages per minute for group chats. -/
def GROUP_LIMIT : Nat := 20

/-- `RESET_INTERVAL = 1000` ms. -/
def RESET_INTERVAL : Int := 1000

/-- `GROUP_RESET_INTERVAL = 60000` ms. -/
def GROUP_RESET_INTERVAL : Int := 60000

/-- `isGroup ? GROUP_RESET_INTERVAL : RESET_INTERVAL`. -/
def resetIntervalFor (isGroup : Bool) : Int :=
  if isGroup then GROUP_RESET_INTERVAL else RESET_INTERVAL

/-- `isGroup ? GROUP_LIMIT : CHAT_LIMIT`. -/
def messageLimitFor (isGroup : Bool) : Nat :=
  if isGroup then GROUP_LIMIT else CHAT_LIMIT

/-- The minimum delay between messages, `isGroup ? 3000 : 1000` (line 63). -/
def minDelayFor (isGroup : Bool) : Int := if isGroup then 3000 else 1000

/-- The per-chat `RateLimit` record. -/
structure RateLimit where
  lastMessageTime : Int
  messageCount : Nat
  resetTime : Int
  retryAfter : Option Int
deriving DecidableEq

/-- The `RateLimiter` fields used by sending (`chatLimits`,
`globalMessageCount`, `lastGlobalReset`). -/
structure RateLimiterState where
  chatLimits : List (Int × RateLimit)
  globalMessageCount : Nat
  lastGlobalReset : Int
deriving DecidableEq

/-- The condition of the `while` loop in `waitForRateLimit` (lines 60-64):
the send is not yet permitted. -/
def sendBlocked (isGroup : Bool) (globalMessageCount : Nat) (l : RateLimit)
    (now : Int) : Bool :=
  decide (GLOBAL_LIMIT ≤ globalMessageCount) ||
    decide (messageLimitFor isGroup ≤ l.messageCount) ||
    decide (now - l.lastMessageTime < minDelayFor isGroup)

/-- The sleep duration computed inside the loop (lines 65-72):
`Math.max(1000, Math.min(a, b, c))`.  Note that the third argument is
`isGroup ? 3000 : 1000 - (Date.now() - limit.lastMessageTime)`, which by
operator precedence is the constant `3000` for groups. -/
def sourceWaitTime (isGroup : Bool) (lastGlobalReset resetTime lastMessageTime
    now : Int) : Int :=
  max 1000
    (min (RESET_INTERVAL - (now - lastGlobalReset))
      (min (resetIntervalFor isGroup - (now - resetTime))
        (if isGroup then 3000 else 1000 - (now - lastMessageTime))))

/-- Modelled from the spec: the remaining time until the global window
resets. -/
def specRemainingGlobal (lastGlobalReset now : Int) : Int :=
  RESET_INTERVAL - (now - lastGlobalReset)

/-- Modelled from the spec: the remaining time until the recipient's window
resets. -/
def specRemainingChat (isGroup : Bool) (resetTime now : Int) : Int :=
  resetIntervalFor isGroup - (now - resetTime)

/-- Modelled from the spec: the remaining minimum inter-message spacing for
the recipient. -/
def specRemainingSpacing (isGroup : Bool) (lastMessageTime now : Int) : Int :=
  minDelayFor isGroup - (now - lastMessageTime)

/-- Modelled from the spec: "the wait is the maximum of the three
constraints' remaining time, floored at a minimum granularity". -/
def specWaitTimeMax (isGroup : Bool) (lastGlobalReset resetTime lastMessageTime
    now : Int) : Int :=
  max 1000
    (max (specRemainingGlobal lastGlobalReset now)
      (max (specRemainingChat isGroup resetTime now)
        (specRemainingSpacing isGroup lastMessageTime now)))

/-- The mutable context of the `while` loop: the global counter and reset
time, the chat's `RateLimit` record, and the current time. -/
structure WaitCtx where
  globalMessageCount : Nat
  lastGlobalReset : Int
  limit : RateLimit
  now : Int
deriving DecidableEq

/-- The `while` loop of `waitForRateLimit` (lines 60-85): while the send is
blocked, sleep for the computed wait time, then reset whichever windows have
elapsed, and re-test.  Fuel bounds the number of iterations. -/
def waitLoop (isGroup : Bool) : Nat → WaitCtx → Option WaitCtx
  | 0, _ => none
  | fuel + 1, w =>
    if sendBlocked isGroup w.globalMessageCount w.limit w.now then
      let now2 := w.now +
        sourceWaitTime isGroup w.lastGlobalReset w.limit.resetTime
          w.limit.lastMessageTime w.now
      let g2 : Nat × Int :=
        if RESET_INTERVAL ≤ now2 - w.lastGlobalReset then (0, now2)
        else (w.globalMessageCount, w.lastGlobalReset)
      let l2 :=
        if resetIntervalFor isGroup ≤ now2 - w.limit.resetTime then
          { w.limit with messageCount := 0, resetTime := now2 }
        else w.limit
      waitLoop isGroup fuel ⟨g2.1, g2.2, l2, now2⟩
    else some w

/-- `waitForRateLimit` (lines 26-91), returning the completion time (the
`Date.now()` at which the counters are bumped and the caller resumes) and
the updated limiter state.  The `limit.retryAfter && Date.now() < limit.retryAfter`
test follows JavaScript truthiness: `undefined` and `0` are both falsy. -/
def waitForRateLimit (fuel : Nat) (s : RateLimiterState) (chatId : Int)
    (isGroup : Bool) (now : Int) : Option (Int × RateLimiterState) :=
  let g0 : Nat × Int :=
    if RESET_INTERVAL ≤ now - s.lastGlobalReset then (0, now)
    else (s.globalMessageCount, s.lastGlobalReset)
  let chatLimits0 :=
    if (jsLookup s.chatLimits chatId).isSome then s.chatLimits
    else jsSet s.chatLimits chatId ⟨0, 0, now, none⟩
  let l0 := (jsLookup chatLimits0 chatId).getD ⟨0, 0, now, none⟩
  let p1 : Int × RateLimit :=
    match l0.retryAfter with
    | some d => if d ≠ 0 ∧ now < d then (d, { l0 with retryAfter := none }) else (now, l0)
    | none => (now, l0)
  let l2 :=
    if resetIntervalFor isGroup ≤ p1.1 - p1.2.resetTime then
      { p1.2 with messageCount := 0, resetTime := p1.1 }
    else p1.2
  (waitLoop isGroup fuel ⟨g0.1, g0.2, l2, p1.1⟩).map fun w =>
    (w.now,
      { chatLimits :=
          jsSet chatLimits0 chatId
            { w.limit with
              messageCount := w.limit.messageCount + 1,
              lastMessageTime := w.now },
        globalMessageCount := w.globalMessageCount + 1,
        lastGlobalReset := w.lastGlobalReset })

/-- `handleRateLimitError` (lines 94-100): when the chat has a `RateLimit`
record, stamp a `retryAfter` deadline `retryAfterSeconds` from now and force
`messageCount` to `CHAT_LIMIT`; when the chat has never been awaited (no
record), do nothing. -/
def handleRateLimitError (s : RateLimiterState) (chatId : Int)
    (retryAfterSeconds now : Int) : RateLimiterState :=
  match jsLookup s.chatLimits chatId with
  | none => s
  | some l =>
    { s with
      chatLimits :=
        jsSet s.chatLimits chatId
          { l with
            retryAfter := some (now + retryAfterSeconds * 1000),
            messageCount := CHAT_LIMIT } }

/-! ## Market-cap formatter (`changeStyle`)

From `src/src/utils/utils.ts` lines 138-147 (identical in
`src/unnamed/part_002` lines 300-309).  A JavaScript number is modelled as
`NaN`, `±Infinity`, or a finite value idealised as a `Rat` (binary64
rounding of `Math.log10`, the division and `toFixed` is idealised as exact
real arithmetic; every step below states which exact JavaScript special-value
rule it encodes). -/

/-- A JavaScript number: `NaN`, `Infinity`, `-Infinity`, or a finite value. -/
inductive JSNum where
  | nan
  | inf
  | ninf
  | fin (q : Rat)
deriving DecidableEq

/-- The value of `Math.floor(Math.log10(Math.abs(input)) / 3)`: `-Infinity`
for input `0` (since `Math.log10(0) = -Infinity`, and `-Infinity / 3` and
`Math.floor(-Infinity)` stay `-Infinity`), an integer otherwise. -/
inductive JSMagnitude where
  | negInf
  | int (m : Int)
deriving DecidableEq

/-- `⌊log10 n⌋` of a positive natural, by repeated division; the fuel bounds
the recursion and any `fuel ≥ n` computes the exact value. -/
def natLog10Aux : Nat → Nat → Nat
  | 0, _ => 0
  | fuel + 1, n => if n < 10 then 0 else natLog10Aux fuel (n / 10) + 1

/-- `⌊log10 q⌋` for a positive rational `q`, computed exactly: for `q ≥ 1`
it is the digit count of `⌊q⌋` minus one; for `q < 1` it is
`-⌈log10 (1/q)⌉`. -/
def ratILog10 (q : Rat) : Int :=
  if 1 ≤ q then (natLog10Aux ⌊q⌋.toNat ⌊q⌋.toNat : Int)
  else
    let r := q⁻¹
    let k := natLog10Aux ⌊r⌋.toNat ⌊r⌋.toNat
    if r = (10 : Rat) ^ k then -(k : Int) else -((k : Int) + 1)

/-- `Math.floor(Math.log10(Math.abs(input)) / 3)` for finite input: for a
non-zero value `⌊(log10 |q|) / 3⌋ = ⌊⌊log10 |q|⌋ / 3⌋` (flooring a real
divided by the positive integer 3 factors through the inner floor), written
with `Int.fdiv` (floor division). -/
def jsMagnitude (q : Rat) : JSMagnitude :=
  if q = 0 then JSMagnitude.negInf
  else JSMagnitude.int ((ratILog10 |q|).fdiv 3)

/-- `Math.pow(10, magnitude * 3)`: `-Infinity * 3 = -Infinity` and
`Math.pow(10, -Infinity) = 0`; for an integer magnitude this is an exact
rational power. -/
def jsPow10Mag3 : JSMagnitude → Rat
  | JSMagnitude.negInf => 0
  | JSMagnitude.int m => (10 : Rat) ^ (3 * m)

/-- JavaScript division `a / b` of finite operands: `0 / 0 = NaN`,
`x / 0 = ±Infinity` for `x ≠ 0`, finite otherwise. -/
def jsDivNum (a b : Rat) : JSNum :=
  if b = 0 then
    if a = 0 then JSNum.nan else if 0 < a then JSNum.inf else JSNum.ninf
  else JSNum.fin (a / b)

/-- `const suffixes = ['', 'K', 'M', 'B', 'T']`. -/
def suffixes : List String := ["", "K", "M", "B", "T"]

/-- `suffixes[magnitude] || ''`: a negative, too-large or non-integer index
reads `undefined`, and both `undefined` and the falsy `''` at index 0 reach
`''` through `|| ''`. -/
def jsSuffixAt : JSMagnitude → String
  | JSMagnitude.negInf => ""
  | JSMagnitude.int m => if m < 0 then "" else suffixes.getD m.toNat ""

/-- Render a value less than 100 as two digits with a leading zero. -/
def natTwoDigits (n : Nat) : String :=
  (if n < 10 then "0" else "") ++ toString n

/-- `Number.prototype.toFixed(2)` on a finite value, idealised as exact:
pick the integer `n` minimising `|n / 100 - |q||` (ties away from zero,
i.e. `n = ⌊100 |q| + 1/2⌋`), and print `-`/`n / 100`/`.`/two digits. -/
def jsToFixed2 (q : Rat) : String :=
  let sign := if q < 0 then "-" else ""
  let n : Nat := (⌊|q| * 100 + 1 / 2⌋).toNat
  sign ++ toString (n / 100) ++ "." ++ natTwoDigits (n % 100)

/-- `toFixed(2)` on a general JavaScript number: `NaN.toFixed(2) = "NaN"`,
`Infinity.toFixed(2) = "Infinity"`. -/
def jsToFixed2N : JSNum → String
  | JSNum.nan => "NaN"
  | JSNum.inf => "Infinity"
  | JSNum.ninf => "-Infinity"
  | JSNum.fin q => jsToFixed2 q

/-- `changeStyle` (`src/src/utils/utils.ts` lines 138-147): non-finite
inputs short-circuit to `'0'` through the
`isNaN(input) || !isFinite(input)` guard; a finite input is scaled by
`Math.pow(10, magnitude * 3)` and printed with `toFixed(2)` plus the
suffix. -/
def changeStyle (input : JSNum) : String :=
  match input with
  | JSNum.fin q =>
    let magnitude := jsMagnitude q
    let scaledNumber := jsDivNum q (jsPow10Mag3 magnitude)
    let suffix := jsSuffixAt magnitude
    jsToFixed2N scaledNumber ++ suffix
  | _ => "0"

/-! ## Helper lemmas -/

theorem jsLookup_cons {κ α : Type} [DecidableEq κ] (p : κ × α)
    (m : List (κ × α)) (k : κ) :
    jsLookup (p :: m) k = if p.1 = k then some p.2 else jsLookup m k := by
  by_cases h : p.1 = k <;> simp [jsLookup, List.find?_cons, h]

theorem jsSet_cons_ne {κ α : Type} [DecidableEq κ] (p : κ × α)
    (m : List (κ × α)) (k : κ) (v : α) (h : p.1 ≠ k) :
    jsSet (p :: m) k v = p :: jsSet m k v := by
  unfold jsSet
  by_cases ha : m.any (fun q => decide (q.1 = k)) <;> simp [List.any_cons, h, ha]

theorem jsSet_cons_eq {κ α : Type} [DecidableEq κ] (p : κ × α)
    (m : List (κ × α)) (k : κ) (v : α) (h : p.1 = k) :
    jsSet (p :: m) k v =
      (k, v) :: m.map (fun q => if q.1 = k then (k, v) else q) := by
  simp [jsSet, List.any_cons, h]

theorem jsLookup_map_ne {κ α : Type} [DecidableEq κ] (m : List (κ × α))
    (k k' : κ) (v : α) (h : k' ≠ k) :
    jsLookup (m.map (fun q => if q.1 = k then (k, v) else q)) k' =
      jsLookup m k' := by
  have hkk : ¬ k = k' := fun hc => h (Eq.symm hc)
  induction m with
  | nil => rfl
  | cons q m ih =>
    simp only [List.map_cons]
    by_cases hq : q.1 = k
    · have hq2 : ¬ q.1 = k' := by rw [hq]; exact hkk
      rw [if_pos hq, jsLookup_cons, jsLookup_cons, if_neg hkk, if_neg hq2, ih]
    · rw [if_neg hq, jsLookup_cons, jsLookup_cons, ih]

theorem jsLookup_jsSet_self {κ α : Type} [DecidableEq κ] (m : List (κ × α))
    (k : κ) (v : α) : jsLookup (jsSet m k v) k = some v := by
  induction m with
  | nil => simp [jsSet, jsLookup]
  | cons p m ih =>
    by_cases h : p.1 = k
    · rw [jsSet_cons_eq p m k v h, jsLookup_cons]
      simp
    · rw [jsSet_cons_ne p m k v h, jsLookup_cons, if_neg h]
      exact ih

theorem jsLookup_jsSet_ne {κ α : Type} [DecidableEq κ] (m : List (κ × α))
    (k k' : κ) (v : α) (h : k' ≠ k) :
    jsLookup (jsSet m k v) k' = jsLookup m k' := by
  have hkk : ¬ k = k' := fun hc => h (Eq.symm hc)
  induction m with
  | nil => simp [jsSet, jsLookup, hkk]
  | cons p m ih =>
    by_cases hp : p.1 = k
    · have hp2 : ¬ p.1 = k' := by rw [hp]; exact hkk
      rw [jsSet_cons_eq p m k v hp, jsLookup_cons, if_neg hkk,
        jsLookup_map_ne m k k' v h, jsLookup_cons, if_neg hp2]
    · rw [jsSet_cons_ne p m k v hp, jsLookup_cons, jsLookup_cons]
      by_cases hp2 : p.1 = k' <;> simp [hp2, ih]

theorem length_jsSet {κ α : Type} [DecidableEq κ] (m : List (κ × α)) (k : κ)
    (v : α) :
    (jsSet m k v).length =
      if m.any (fun p => decide (p.1 = k)) then m.length else m.length + 1 := by
  unfold jsSet
  split <;> simp

theorem jsAny_eq_isSome {κ α : Type} [DecidableEq κ] (m : List (κ × α))
    (k : κ) :
    m.any (fun p => decide (p.1 = k)) = (jsLookup m k).isSome := by
  induction m with
  | nil => rfl
  | cons p m ih =>
    by_cases h : p.1 = k <;> simp [List.any_cons, jsLookup_cons, h, ih]

theorem length_jsSet_present {κ α : Type} [DecidableEq κ] (m : List (κ × α))
    (k : κ) (v : α) (h : (jsLookup m k).isSome) :
    (jsSet m k v).length = m.length := by
  rw [length_jsSet, jsAny_eq_isSome, if_pos h]

theorem length_jsDelete_lt {κ α : Type} [DecidableEq κ] (m : List (κ × α))
    (k : κ) (h : (jsLookup m k).isSome) :
    (jsDelete m k).length < m.length := by
  induction m with
  | nil => simp [jsLookup] at h
  | cons p m ih =>
    by_cases hp : p.1 = k
    · have hle : (jsDelete (p :: m) k).length ≤ m.length := by
        simpa [jsDelete, hp] using List.length_filter_le _ m
      simpa using Nat.lt_succ_of_le hle
    · rw [jsLookup_cons, if_neg hp] at h
      simpa [jsDelete, hp] using ih h

theorem length_jsDelete_le {κ α : Type} (m : List (κ × α)) [DecidableEq κ]
    (k : κ) : (jsDelete m k).length ≤ m.length :=
  List.length_filter_le _ m

theorem tmSet_self (m : TokenMap) (k : String) (v : Int) :
    tmSet m k v k = some v := by
  simp [tmSet]

theorem tmSet_ne (m : TokenMap) (k k' : String) (v : Int) (h : k' ≠ k) :
    tmSet m k v k' = m k' := by
  simp [tmSet, h]

/-- The resulting map of one correlation step, branch by branch. -/
theorem monitorStep_state (main1 main2 : String) (s : TokenMap) (id : Int)
    (ca : String) :
    (monitorSmallWalletsStep main1 main2 s id ca).state =
      if ca = main1 ∨ ca = main2 then tmSet s ca (-1)
      else if s ca = some (3 - id) ∨ s ca = some 3 then tmSet s ca 3
      else if s ca ≠ some (-1) then tmSet s ca id
      else s := by
  unfold monitorSmallWalletsStep
  split_ifs <;> rfl

/-- The action of one correlation step, branch by branch. -/
theorem monitorStep_act (main1 main2 : String) (s : TokenMap) (id : Int)
    (ca : String) :
    (monitorSmallWalletsStep main1 main2 s id ca).act =
      if ca = main1 ∨ ca = main2 then CorrAction.ignore
      else if s ca = some (3 - id) ∨ s ca = some 3 then CorrAction.confirm
      else if s ca ≠ some (-1) then CorrAction.track
      else CorrAction.noop := by
  unfold monitorSmallWalletsStep
  split_ifs <;> rfl

/-- The notification flag of one correlation step, branch by branch. -/
theorem monitorStep_notified (main1 main2 : String) (s : TokenMap) (id : Int)
    (ca : String) :
    (monitorSmallWalletsStep main1 main2 s id ca).notified = true ↔
      (¬(ca = main1 ∨ ca = main2) ∧ (s ca = some (3 - id) ∨ s ca = some 3)) := by
  unfold monitorSmallWalletsStep
  split_ifs with h1 h2 h3 <;> simp_all

/-- Invariant of the part_003/part_004 correlation machine: the value `-1`
only ever marks one of the two main wallet addresses. -/
theorem corrReachable_ignored_is_main (main1 main2 : String) (s : TokenMap)
    (h : CorrReachable main1 main2 s) :
    ∀ k, s k = some (-1) → k = main1 ∨ k = main2 := by
  induction h with
  | init => intro k hk; exact absurd hk (by simp)
  | step s id ca hid _ ih =>
    intro k hk
    rw [monitorStep_state] at hk
    split_ifs at hk with h1 h2 h3
    · by_cases hca : k = ca
      · subst hca; exact h1
      · exact ih k (by rwa [tmSet_ne s ca k _ hca] at hk)
    · by_cases hca : k = ca
      · subst hca; rw [tmSet_self] at hk; exact absurd hk (by decide)
      · exact ih k (by rwa [tmSet_ne s ca k _ hca] at hk)
    · by_cases hca : k = ca
      · subst hca
        rw [tmSet_self] at hk
        rcases hid with hid | hid <;> subst hid <;> exact absurd hk (by decide)
      · exact ih k (by rwa [tmSet_ne s ca k _ hca] at hk)
    · exact ih k hk

/-- The `reduce` result is one of the map's entries. -/
theorem oldestEntry_mem (x : String × WalletTrack) (xs : WalletMap) :
    oldestEntry x xs ∈ x :: xs := by
  induction xs generalizing x with
  | nil => simp [oldestEntry]
  | cons y ys ih =>
    have step : oldestEntry x (y :: ys) = oldestEntry (oldestFold x y) ys := rfl
    have hmem := ih (oldestFold x y)
    rw [step]
    unfold oldestFold at hmem ⊢
    split_ifs at hmem ⊢ with hf
    · rcases List.mem_cons.mp hmem with h | h
      · exact List.mem_cons.mpr (Or.inr (List.mem_cons.mpr (Or.inl h)))
      · exact List.mem_cons.mpr (Or.inr (List.mem_cons.mpr (Or.inr h)))
    · rcases List.mem_cons.mp hmem with h | h
      · exact List.mem_cons.mpr (Or.inl h)
      · exact List.mem_cons.mpr (Or.inr (List.mem_cons.mpr (Or.inr h)))

/-- The `reduce` result has the minimum timestamp of the map. -/
theorem oldestEntry_min (x : String × WalletTrack) (xs : WalletMap) :
    ∀ p ∈ x :: xs, (oldestEntry x xs).2.timestamp ≤ p.2.timestamp := by
  induction xs generalizing x with
  | nil =>
    intro p hp
    rcases List.mem_cons.mp hp with h | h
    · subst h; exact le_refl _
    · exact absurd h (List.not_mem_nil p)
  | cons y ys ih =>
    intro p hp
    have step : oldestEntry x (y :: ys) = oldestEntry (oldestFold x y) ys := rfl
    have hfx : (oldestFold x y).2.timestamp ≤ x.2.timestamp := by
      unfold oldestFold; split_ifs with hf
      · exact Nat.le_of_lt hf
      · exact le_refl _
    have hfy : (oldestFold x y).2.timestamp ≤ y.2.timestamp := by
      unfold oldestFold; split_ifs with hf
      · exact le_refl _
      · exact Nat.le_of_not_lt hf
    rw [step]
    rcases List.mem_cons.mp hp with h | h
    · rw [h]
      exact le_trans (ih (oldestFold x y) _ (List.mem_cons.mpr (Or.inl rfl))) hfx
    · rcases List.mem_cons.mp h with h2 | h2
      · rw [h2]
        exact le_trans (ih (oldestFold x y) _ (List.mem_cons.mpr (Or.inl rfl))) hfy
      · exact ih (oldestFold x y) p (List.mem_cons.mpr (Or.inr h2))

/-! ## Claim theorems -/

/-- **C1.** For a token id distinct from both root wallet addresses, the
part_003/part_004 `MonitorSmallWallets` confirms exactly when the token was
previously observed by the other root wallet (`3 - id`) or is already
confirmed (`3`), notifies exactly on confirm, and runs the two spec
scenarios as Track/Confirm and Track/Track; the `src/src/utils/index.ts`
variant instead confirms on the second observation from the *same* wallet
(its branch tests `=== id`) and sends no notification even then. -/
theorem monitorSmallWallets_cross_confirm :
    ∀ s : TokenMap,
    ((monitorSmallWalletsStep "W1" "W2" s 1 "TK").act = CorrAction.confirm ↔
      (s "TK" = some 2 ∨ s "TK" = some 3)) ∧
    ((monitorSmallWalletsStep "W1" "W2" s 2 "TK").act = CorrAction.confirm ↔
      (s "TK" = some 1 ∨ s "TK" = some 3)) ∧
    (∀ id : Int,
      ((monitorSmallWalletsStep "W1" "W2" s id "TK").notified = true ↔
        (monitorSmallWalletsStep "W1" "W2" s id "TK").act =
          CorrAction.confirm)) ∧
    ((monitorSmallWalletsStep "W1" "W2" (fun _ => none) 1 "TK").act =
        CorrAction.track ∧
      (monitorSmallWalletsStep "W1" "W2"
          (monitorSmallWalletsStep "W1" "W2" (fun _ => none) 1 "TK").state 2
          "TK").act = CorrAction.confirm ∧
      (monitorSmallWalletsStep "W1" "W2"
          (monitorSmallWalletsStep "W1" "W2" (fun _ => none) 1 "TK").state 1
          "TK").act = CorrAction.track ∧
      (monitorSmallWalletsStep "W1" "W2" (fun _ => none) 1 "TK").notified =
        false ∧
      (monitorSmallWalletsStep "W1" "W2"
          (monitorSmallWalletsStep "W1" "W2" (fun _ => none) 1 "TK").state 1
          "TK").notified = false) ∧
    ((monitorSmallWalletsStepIdx "W1" "W2" (fun _ => none) 1 "TK").act =
        CorrAction.track ∧
      (monitorSmallWalletsStepIdx "W1" "W2"
          (monitorSmallWalletsStepIdx "W1" "W2" (fun _ => none) 1 "TK").state 1
          "TK").act = CorrAction.confirm ∧
      (monitorSmallWalletsStepIdx "W1" "W2"
          (monitorSmallWalletsStepIdx "W1" "W2" (fun _ => none) 1 "TK").state 1
          "TK").notified = false) := by
  intro s
  have hno : ¬(("TK" : String) = "W1" ∨ ("TK" : String) = "W2") := by decide
  refine ⟨?_, ?_, ?_, by decide, by decide⟩
  · rw [monitorStep_act, if_neg hno]
    norm_num
    constructor
    · intro hchain
      by_contra hab
      push_neg at hab
      have hc := hchain hab.1 hab.2
      split_ifs at hc <;> exact absurd hc (by decide)
    · intro hab ha hb
      rcases hab with h | h
      · exact absurd h ha
      · exact absurd h hb
  · rw [monitorStep_act, if_neg hno]
    norm_num
    constructor
    · intro hchain
      by_contra hab
      push_neg at hab
      have hc := hchain hab.1 hab.2
      split_ifs at hc <;> exact absurd hc (by decide)
    · intro hab ha hb
      rcases hab with h | h
      · exact absurd h ha
      · exact absurd h hb
  · intro id
    rw [monitorStep_notified, monitorStep_act]
    split_ifs <;> simp_all

/-- **C4.** In the part_003/part_004 correlation machine, once a token id is
Ignored (`-1`) — which, from a reachable state, can only happen because the
token id equals a root wallet address — every further `observe` leaves it at
`-1`, returns Ignore (never Confirm), and sends no notification; and a
not-yet-ignored token becomes Ignored exactly when it equals one of the root
wallet addresses. -/
theorem ignored_absorbing (main1 main2 : String) (s : TokenMap) (id : Int)
    (ca : String) (hid : id = 1 ∨ id = 2)
    (hr : CorrReachable main1 main2 s) :
    (s ca = some (-1) →
      (monitorSmallWalletsStep main1 main2 s id ca).state ca = some (-1) ∧
      (monitorSmallWalletsStep main1 main2 s id ca).act = CorrAction.ignore ∧
      (monitorSmallWalletsStep main1 main2 s id ca).act ≠ CorrAction.confirm ∧
      (monitorSmallWalletsStep main1 main2 s id ca).notified = false) ∧
    (s ca ≠ some (-1) →
      ((monitorSmallWalletsStep main1 main2 s id ca).state ca = some (-1) ↔
        (ca = main1 ∨ ca = main2))) := by
  constructor
  · intro h
    have hmain := corrReachable_ignored_is_main main1 main2 s hr ca h
    refine ⟨?_, ?_, ?_, ?_⟩
    · rw [monitorStep_state, if_pos hmain, tmSet_self]
    · rw [monitorStep_act, if_pos hmain]
    · rw [monitorStep_act, if_pos hmain]
      decide
    · unfold monitorSmallWalletsStep
      rw [if_pos hmain]
  · intro h
    constructor
    · intro hstate
      by_contra hmain
      rw [monitorStep_state, if_neg hmain] at hstate
      by_cases h2 : s ca = some (3 - id) ∨ s ca = some 3
      · rw [if_pos h2, tmSet_self] at hstate
        exact absurd hstate (by decide)
      · rw [if_neg h2] at hstate
        by_cases h3 : s ca ≠ some (-1)
        · rw [if_pos h3, tmSet_self] at hstate
          rcases hid with hid | hid <;> subst hid <;>
            exact absurd hstate (by decide)
        · exact h (not_not.mp h3)
    · intro hmain
      rw [monitorStep_state, if_pos hmain, tmSet_self]

/-- Witness for `ignored_absorbing`: after the self-referencing observation
`observe(1, "A")` (with `"A"` the first root wallet address) the entry is
`-1`, and a further `observe(2, "A")` keeps it `-1` without confirming. -/
theorem ignored_absorbing_witness :
    (monitorSmallWalletsStep "A" "B"
        (monitorSmallWalletsStep "A" "B" (fun _ => none) 1 "A").state 2
        "A").state "A" = some (-1) ∧
    (monitorSmallWalletsStep "A" "B"
        (monitorSmallWalletsStep "A" "B" (fun _ => none) 1 "A").state 2
        "A").act ≠ CorrAction.confirm := by
  have h := (ignored_absorbing "A" "B"
    (monitorSmallWalletsStep "A" "B" (fun _ => none) 1 "A").state 2 "A"
    (Or.inr rfl)
    (CorrReachable.step (fun _ => none) 1 "A" (Or.inl rfl)
      CorrReachable.init)).1 (by decide)
  exact ⟨h.1, h.2.2.1⟩

theorem mem_lookup_isSome {κ α : Type} [DecidableEq κ] (m : List (κ × α))
    (p : κ × α) (h : p ∈ m) : (jsLookup m p.1).isSome := by
  induction m with
  | nil => exact absurd h (List.not_mem_nil p)
  | cons q m ih =>
    by_cases hq : q.1 = p.1
    · rw [jsLookup_cons, if_pos hq]
      rfl
    · rw [jsLookup_cons, if_neg hq]
      rcases List.mem_cons.mp h with h2 | h2
      · exact absurd (congrArg Prod.fst h2.symm) hq
      · exact ih h2

theorem length_jsSet_le {κ α : Type} [DecidableEq κ] (m : List (κ × α))
    (k : κ) (v : α) : (jsSet m k v).length ≤ m.length + 1 := by
  rw [length_jsSet]
  split <;> omega

/-- One `trackNewWallet` call preserves the capacity bound. -/
theorem trackNewWallet_length_le (N : Nat) (m : WalletMap) (address : String)
    (now : Nat) (h : m.length ≤ N) :
    (trackNewWallet N m address now).length ≤ N := by
  unfold trackNewWallet
  split_ifs with hcap
  · match m with
    | [] => simpa using Nat.zero_le N
    | x :: xs =>
      show (jsSet (jsDelete (x :: xs) (oldestEntry x xs).1) address
        ⟨address, now⟩).length ≤ N
      have hmem := oldestEntry_mem x xs
      have hsome := mem_lookup_isSome (x :: xs) _ hmem
      have hdel : (jsDelete (x :: xs) (oldestEntry x xs).1).length <
          (x :: xs : WalletMap).length := length_jsDelete_lt _ _ hsome
      have := length_jsSet_le
        (jsDelete (x :: xs) (oldestEntry x xs).1) address
        (⟨address, now⟩ : WalletTrack)
      omega
  · have := length_jsSet_le m address (⟨address, now⟩ : WalletTrack)
    omega

/-- Any sequence of `trackNewWallet` calls preserves the capacity bound. -/
theorem trackNewWalletSeq_length_le (N : Nat) (calls : List (String × Nat)) :
    ∀ m : WalletMap, m.length ≤ N → (trackNewWalletSeq N m calls).length ≤ N := by
  induction calls with
  | nil => intro m h; exact h
  | cons c cs ih =>
    intro m h
    exact ih _ (trackNewWallet_length_le N m c.1 c.2 h)

/-- **C5.** Starting from the empty store, every sequence of
`trackNewWallet` calls keeps the store within capacity `N` (instantiating
the sequence with any prefix gives the bound after each call); and whenever
a call happens at or above capacity on a non-empty store, the deleted entry
is the `reduce` result, which is a member of the store carrying its minimum
timestamp. -/
theorem trackNewWallet_capacity_eviction (N : Nat) :
    (∀ calls : List (String × Nat),
      (trackNewWalletSeq N [] calls).length ≤ N) ∧
    (∀ (x : String × WalletTrack) (xs : WalletMap) (address : String)
      (now : Nat), N ≤ (x :: xs : WalletMap).length →
      (oldestEntry x xs ∈ (x :: xs : WalletMap) ∧
        (∀ p ∈ (x :: xs : WalletMap),
          (oldestEntry x xs).2.timestamp ≤ p.2.timestamp) ∧
        trackNewWallet N (x :: xs) address now =
          jsSet (jsDelete (x :: xs) (oldestEntry x xs).1) address
            ⟨address, now⟩)) := by
  constructor
  · intro calls
    exact trackNewWalletSeq_length_le N calls [] (by simp [WalletMap])
  · intro x xs address now hcap
    refine ⟨oldestEntry_mem x xs, oldestEntry_min x xs, ?_⟩
    unfold trackNewWallet
    rw [if_pos hcap]

/-- Witness for `trackNewWallet_capacity_eviction`: at capacity 2, inserting
a third address evicts the entry with the minimum timestamp (`"b"`). -/
theorem trackNewWallet_capacity_eviction_witness :
    oldestEntry ("a", ⟨"a", 5⟩) [("b", ⟨"b", 3⟩)] = ("b", ⟨"b", 3⟩) ∧
    trackNewWallet 2 [("a", ⟨"a", 5⟩), ("b", ⟨"b", 3⟩)] "c" 9 =
      jsSet (jsDelete [("a", ⟨"a", 5⟩), ("b", ⟨"b", 3⟩)]
        (oldestEntry ("a", ⟨"a", 5⟩) [("b", ⟨"b", 3⟩)]).1) "c" ⟨"c", 9⟩ :=
  ⟨rfl,
    ((trackNewWallet_capacity_eviction 2).2 ("a", ⟨"a", 5⟩) [("b", ⟨"b", 3⟩)]
      "c" 9 (by decide)).2.2⟩

/-- **C9.** For an address already tracked in the selected store,
`trackUpdateWallet` only refreshes that entry's timestamp: the store keeps
its size (no eviction, regardless of how full it is), the entry's value
becomes `{address, now}`, every other key reads the same value as before,
and the other wallet's store is untouched. -/
theorem trackUpdateWallet_refresh_frame (s : DiscoveryState) (id : Int)
    (address : String) (now : Nat) (v : WalletTrack)
    (hid : id = 1 ∨ id = 2)
    (hmem : jsLookup (storeOf s id) address = some v) :
    (storeOf (trackUpdateWallet s id address now) id).length =
      (storeOf s id).length ∧
    jsLookup (storeOf (trackUpdateWallet s id address now) id) address =
      some ⟨address, now⟩ ∧
    (∀ k, k ≠ address →
      jsLookup (storeOf (trackUpdateWallet s id address now) id) k =
        jsLookup (storeOf s id) k) ∧
    otherStoreOf (trackUpdateWallet s id address now) id =
      otherStoreOf s id := by
  rcases hid with hid | hid <;> subst hid
  · have hsome : (jsLookup s.trackedWallets_1 address).isSome := by
      have he : jsLookup s.trackedWallets_1 address = some v := hmem
      rw [he]; rfl
    refine ⟨?_, ?_, ?_, ?_⟩
    · show (jsSet s.trackedWallets_1 address ⟨address, now⟩).length =
        s.trackedWallets_1.length
      exact length_jsSet_present _ _ _ hsome
    · show jsLookup (jsSet s.trackedWallets_1 address ⟨address, now⟩) address =
        some ⟨address, now⟩
      exact jsLookup_jsSet_self _ _ _
    · intro k hk
      show jsLookup (jsSet s.trackedWallets_1 address ⟨address, now⟩) k =
        jsLookup s.trackedWallets_1 k
      exact jsLookup_jsSet_ne _ _ _ _ hk
    · rfl
  · have hsome : (jsLookup s.trackedWallets_2 address).isSome := by
      have he : jsLookup s.trackedWallets_2 address = some v := hmem
      rw [he]; rfl
    refine ⟨?_, ?_, ?_, ?_⟩
    · show (jsSet s.trackedWallets_2 address ⟨address, now⟩).length =
        s.trackedWallets_2.length
      exact length_jsSet_present _ _ _ hsome
    · show jsLookup (jsSet s.trackedWallets_2 address ⟨address, now⟩) address =
        some ⟨address, now⟩
      exact jsLookup_jsSet_self _ _ _
    · intro k hk
      show jsLookup (jsSet s.trackedWallets_2 address ⟨address, now⟩) k =
        jsLookup s.trackedWallets_2 k
      exact jsLookup_jsSet_ne _ _ _ _ hk
    · rfl

/-- Witness for `trackUpdateWallet_refresh_frame` at a concrete two-entry
store already holding the refreshed address. -/
theorem trackUpdateWallet_refresh_frame_witness :
    (storeOf (trackUpdateWallet
        ⟨[("a", ⟨"a", 1⟩), ("b", ⟨"b", 2⟩)], []⟩ 1 "a" 7) 1).length =
      (storeOf (⟨[("a", ⟨"a", 1⟩), ("b", ⟨"b", 2⟩)], []⟩ : DiscoveryState)
        1).length ∧
    jsLookup (storeOf (trackUpdateWallet
        ⟨[("a", ⟨"a", 1⟩), ("b", ⟨"b", 2⟩)], []⟩ 1 "a" 7) 1) "a" =
      some ⟨"a", 7⟩ := by
  have h := trackUpdateWallet_refresh_frame
    ⟨[("a", ⟨"a", 1⟩), ("b", ⟨"b", 2⟩)], []⟩ 1 "a" 7 ⟨"a", 1⟩ (Or.inl rfl)
    (by decide)
  exact ⟨h.1, h.2.1⟩

/-- After `batchTokenUpdate`, the wallet's pending map is the previous one
(empty when absent) with the token's entry overwritten. -/
theorem batchTokenUpdate_pending_self (s : BatcherState) (now w : Int)
    (mint : String) (b : Rat) (sig : String) :
    jsLookup (batchTokenUpdate s now w mint b sig).pendingUpdates w =
      some (jsSet ((jsLookup s.pendingUpdates w).getD []) mint ⟨b, sig⟩) := by
  unfold batchTokenUpdate
  by_cases h : (jsLookup s.pendingUpdates w).isSome
  · simp only [h, if_true, ite_true]
    exact jsLookup_jsSet_self _ _ _
  · have hn : jsLookup s.pendingUpdates w = none :=
      Option.not_isSome_iff_eq_none.mp h
    have hlk : jsLookup (jsSet s.pendingUpdates w
        ([] : List (String × PendingUpdate))) w = some [] :=
      jsLookup_jsSet_self _ _ _
    simp only [hn, Option.isSome_none, Bool.false_eq_true, if_false, ite_false,
      hlk, Option.getD_some, Option.getD_none]
    exact jsLookup_jsSet_self _ _ _

/-- `flushClassify` on a single update, in closed form. -/
theorem flushClassify_single (T : List (String × Rat)) (mint : String)
    (u : PendingUpdate) :
    flushClassify T [(mint, u)] =
      (jsSet T mint u.balance,
        (if (jsLookup T mint).getD 0 = 0 ∧ 0 < u.balance then
          [(mint, u.balance)] else []),
        (if ¬((jsLookup T mint).getD 0 = 0 ∧ 0 < u.balance) ∧
            u.balance ≠ (jsLookup T mint).getD 0 then
          [(mint, (jsLookup T mint).getD 0, u.balance)] else [])) := by
  unfold flushClassify
  simp only [List.foldl_cons, List.foldl_nil]
  split_ifs <;> rfl

/-- Flushing a wallet whose pending map holds exactly one update sends the
message classified against the last known balance, and records the new
balance. -/
theorem processBatchedUpdates_single (s : BatcherState) (w : Int)
    (mint : String) (u : PendingUpdate)
    (hpend : jsLookup s.pendingUpdates w = some [(mint, u)]) :
    (processBatchedUpdates s w).2 =
      (if ((jsLookup (if w = 1 then s.trackedWallets_1 else s.trackedWallets_2)
            mint).getD 0 = 0 ∧ 0 < u.balance) then
        some ⟨[(mint, u.balance)], []⟩
      else if u.balance ≠
          (jsLookup (if w = 1 then s.trackedWallets_1 else s.trackedWallets_2)
            mint).getD 0 then
        some ⟨[], [(mint,
          (jsLookup (if w = 1 then s.trackedWallets_1 else s.trackedWallets_2)
            mint).getD 0, u.balance)]⟩
      else none) ∧
    jsLookup
      (if w = 1 then (processBatchedUpdates s w).1.trackedWallets_1
        else (processBatchedUpdates s w).1.trackedWallets_2) mint =
      some u.balance := by
  have hcls := flushClassify_single
    (if w = 1 then s.trackedWallets_1 else s.trackedWallets_2) mint u
  simp only [processBatchedUpdates, hpend, Option.getD_some, hcls,
    List.length_cons, List.length_nil, ne_eq, Nat.zero_add, one_ne_zero,
    not_false_iff, if_true, ite_true, not_true, ite_false]
  constructor
  · by_cases hA : ((jsLookup (if w = 1 then s.trackedWallets_1 else
        s.trackedWallets_2) mint).getD 0 = 0 ∧ 0 < u.balance)
    · simp [hA]
    · by_cases hB : u.balance = (jsLookup (if w = 1 then s.trackedWallets_1
          else s.trackedWallets_2) mint).getD 0
      · have hC : ¬(¬((jsLookup (if w = 1 then s.trackedWallets_1 else
            s.trackedWallets_2) mint).getD 0 = 0 ∧ 0 < u.balance) ∧
            u.balance ≠ (jsLookup (if w = 1 then s.trackedWallets_1 else
            s.trackedWallets_2) mint).getD 0) := fun hc => hc.2 hB
        have hnB : ¬(u.balance ≠ (jsLookup (if w = 1 then s.trackedWallets_1
            else s.trackedWallets_2) mint).getD 0) := fun hc => hc hB
        rw [if_neg hA, if_neg hC, if_neg hA, if_neg hnB]
        simp
      · simp [hA, hB]
  · by_cases hw1 : w = 1 <;> simp [hw1, jsLookup_jsSet_self]

/-- **C2 (counterexample).** A debounce timer for wallet 1 is pending with
deadline 5000, yet a further `batchTokenUpdate` at time 3000 moves the
deadline to 13000 — the deadline is not left unchanged. -/
theorem batchTokenUpdate_fixed_deadline_cex :
    jsLookup (BatcherState.updateTimeouts
        ⟨[(1, [("TK1", ⟨2, "s1"⟩)])], [(1, 5000)], [], []⟩) 1 = some 5000 ∧
    jsLookup (batchTokenUpdate ⟨[(1, [("TK1", ⟨2, "s1"⟩)])], [(1, 5000)], [], []⟩
        3000 1 "TK1" 5 "s2").updateTimeouts 1 ≠ some 5000 ∧
    jsLookup (batchTokenUpdate ⟨[(1, [("TK1", ⟨2, "s1"⟩)])], [(1, 5000)], [], []⟩
        3000 1 "TK1" 5 "s2").updateTimeouts 1 = some 13000 := by
  refine ⟨rfl, by decide, by decide⟩

/-- **C2 (amended).** `batchTokenUpdate` clears any pending timer for the
wallet and installs a fresh one: the deadline after the call is always
`now + UPDATE_DELAY` (sliding window — the flush fires one full window after
the *latest* enqueue), and other wallets' timers are untouched. -/
theorem batchTokenUpdate_sliding_deadline (s : BatcherState)
    (now walletNumber : Int) (tokenMint : String) (balance : Rat)
    (signature : String) :
    jsLookup (batchTokenUpdate s now walletNumber tokenMint balance
        signature).updateTimeouts walletNumber = some (now + UPDATE_DELAY) ∧
    (∀ w, w ≠ walletNumber →
      jsLookup (batchTokenUpdate s now walletNumber tokenMint balance
          signature).updateTimeouts w = jsLookup s.updateTimeouts w) := by
  constructor
  · show jsLookup (jsSet s.updateTimeouts walletNumber (now + UPDATE_DELAY))
      walletNumber = some (now + UPDATE_DELAY)
    exact jsLookup_jsSet_self _ _ _
  · intro w hw
    show jsLookup (jsSet s.updateTimeouts walletNumber (now + UPDATE_DELAY)) w =
      jsLookup s.updateTimeouts w
    exact jsLookup_jsSet_ne _ _ _ _ hw

/-- Witness for `batchTokenUpdate_sliding_deadline` at a concrete state. -/
theorem batchTokenUpdate_sliding_deadline_witness :
    jsLookup (batchTokenUpdate ⟨[], [], [], []⟩ 3000 1 "TK1" 5
        "s2").updateTimeouts 1 = some (3000 + UPDATE_DELAY) ∧
    jsLookup (batchTokenUpdate ⟨[], [], [], []⟩ 3000 1 "TK1" 5
        "s2").updateTimeouts 2 =
      jsLookup (BatcherState.updateTimeouts ⟨[], [], [], []⟩) 2 := by
  have h := batchTokenUpdate_sliding_deadline ⟨[], [], [], []⟩ 3000 1 "TK1" 5 "s2"
  exact ⟨h.1, h.2 2 (by decide)⟩

/-- **C6.** Two enqueues for the same `(wallet, mint)` within one window
leave a single pending entry carrying the *second* balance; the flush then
sends exactly one message classifying the transition from the previously
recorded balance straight to the final balance (never the intermediate one),
or nothing when the balance is back to the recorded value; and the
last-known-balance map ends at the final balance. -/
theorem batch_overwrite_single_flush (s : BatcherState) (w : Int)
    (mint sig1 sig2 : String) (b1 b2 : Rat) (t1 t2 : Int)
    (hw : w = 1 ∨ w = 2)
    (hpend : jsLookup s.pendingUpdates w = some [] ∨
      jsLookup s.pendingUpdates w = none) :
    jsLookup (batchTokenUpdate (batchTokenUpdate s t1 w mint b1 sig1) t2 w
        mint b2 sig2).pendingUpdates w = some [(mint, ⟨b2, sig2⟩)] ∧
    (processBatchedUpdates (batchTokenUpdate (batchTokenUpdate s t1 w mint b1
        sig1) t2 w mint b2 sig2) w).2 =
      (if ((jsLookup (if w = 1 then s.trackedWallets_1 else s.trackedWallets_2)
            mint).getD 0 = 0 ∧ 0 < b2) then
        some ⟨[(mint, b2)], []⟩
      else if b2 ≠
          (jsLookup (if w = 1 then s.trackedWallets_1 else s.trackedWallets_2)
            mint).getD 0 then
        some ⟨[], [(mint,
          (jsLookup (if w = 1 then s.trackedWallets_1 else s.trackedWallets_2)
            mint).getD 0, b2)]⟩
       else none) ∧
    jsLookup
      (if w = 1 then
        (processBatchedUpdates (batchTokenUpdate (batchTokenUpdate s t1 w mint
          b1 sig1) t2 w mint b2 sig2) w).1.trackedWallets_1
       else
        (processBatchedUpdates (batchTokenUpdate (batchTokenUpdate s t1 w mint
          b1 sig1) t2 w mint b2 sig2) w).1.trackedWallets_2) mint =
      some b2 := by
  have hA : jsLookup (batchTokenUpdate s t1 w mint b1 sig1).pendingUpdates w =
      some [(mint, ⟨b1, sig1⟩)] := by
    rw [batchTokenUpdate_pending_self]
    rcases hpend with hp | hp <;> rw [hp] <;> rfl
  have hB : jsLookup (batchTokenUpdate (batchTokenUpdate s t1 w mint b1 sig1)
      t2 w mint b2 sig2).pendingUpdates w = some [(mint, ⟨b2, sig2⟩)] := by
    rw [batchTokenUpdate_pending_self, hA]
    simp only [Option.getD_some]
    rw [jsSet_cons_eq _ _ _ _ rfl]
    rfl
  have hflush := processBatchedUpdates_single
    (batchTokenUpdate (batchTokenUpdate s t1 w mint b1 sig1) t2 w mint b2 sig2)
    w mint ⟨b2, sig2⟩ hB
  exact ⟨hB, hflush.1, hflush.2⟩

/-- Witness for `batch_overwrite_single_flush`: prior balance 2, enqueue 5
then 9 in one window; the flush reports `2 → 9` once and records 9. -/
theorem batch_overwrite_single_flush_witness :
    jsLookup (batchTokenUpdate (batchTokenUpdate
        ⟨[], [], [("TK1", 2)], []⟩ 100 1 "TK1" 5 "sa") 200 1 "TK1" 9
        "sb").pendingUpdates 1 = some [("TK1", ⟨9, "sb"⟩)] ∧
    (processBatchedUpdates (batchTokenUpdate (batchTokenUpdate
        ⟨[], [], [("TK1", 2)], []⟩ 100 1 "TK1" 5 "sa") 200 1 "TK1" 9
        "sb") 1).2 = some ⟨[], [("TK1", 2, 9)]⟩ := by
  have h := batch_overwrite_single_flush ⟨[], [], [("TK1", 2)], []⟩ 1 "TK1"
    "sa" "sb" 5 9 100 200 (Or.inl rfl) (Or.inr rfl)
  refine ⟨h.1, ?_⟩
  rw [h.2.1]
  decide

/-- **C8 (counterexample).** A balance update enqueued while tracking leaves
a debounce timer pending; `stop()` flips `isTracking` off without cancelling
it, and the flush callback — which performs no `isTracking` check — still
sends its message after the stop. -/
theorem flush_sends_after_stop_cex :
    (stopTracking ⟨true, walletChangeHandler true ⟨[], [], [("TK", 1)], []⟩ 0 1
        [("TK", 5)], [7]⟩).isTracking = false ∧
    jsLookup (stopTracking ⟨true, walletChangeHandler true
        ⟨[], [], [("TK", 1)], []⟩ 0 1 [("TK", 5)], [7]⟩).batcher.updateTimeouts
        1 = some 10000 ∧
    (processBatchedUpdates (stopTracking ⟨true, walletChangeHandler true
        ⟨[], [], [("TK", 1)], []⟩ 0 1 [("TK", 5)], [7]⟩).batcher 1).2 =
      some ⟨[], [("TK", 1, 5)]⟩ := by
  refine ⟨rfl, by decide, by decide⟩

/-- **C8 (amended).** The event-subscription handlers check `isTracking`
first and do nothing once tracking is stopped, and `stop()` clears the
subscriptions; but `stop()` leaves the batcher (pending updates and timer
deadlines) untouched, and the flush callback never consults `isTracking`:
flushing after a stop behaves exactly as before it, so a pending flush still
sends. -/
theorem stop_guard_handlers_not_flush :
    (∀ (s : BatcherState) (now walletNumber : Int)
      (accounts : List (String × Rat)),
      walletChangeHandler false s now walletNumber accounts = s) ∧
    (∀ (s : BatcherState) (now walletNumber : Int)
      (owner walletAddress tokenMint : String) (balance : Rat) (slot : Int),
      tokenProgramHandler false s now walletNumber owner walletAddress
        tokenMint balance slot = s) ∧
    (∀ e : EngineState,
      (stopTracking e).isTracking = false ∧
      (stopTracking e).batcher = e.batcher ∧
      (stopTracking e).subscriptions = []) ∧
    (∀ (e : EngineState) (w : Int),
      processBatchedUpdates (stopTracking e).batcher w =
        processBatchedUpdates e.batcher w) := by
  refine ⟨fun s now wn accounts => rfl, fun s now wn o wa tm b sl => rfl,
    fun e => ⟨rfl, rfl, rfl⟩, fun e w => rfl⟩

/-- **C3 (counterexample).** A concrete blocked state (group recipient, chat
window full, 100 ms into the global window, 1 s into the group window): the
code sleeps `max(1000, min(900, 59000, 3000)) = 1000` ms, while the claimed
"maximum of the three constraints' remaining times, floored" would be
`59000` ms. -/
theorem waitTime_max_of_remaining_cex :
    sendBlocked true 0 ⟨9950, 20, 9000, none⟩ 10000 = true ∧
    sourceWaitTime true 9900 9000 9950 10000 = 1000 ∧
    specWaitTimeMax true 9900 9000 9950 10000 = 59000 ∧
    (1000 : Int) ≠ 59000 := by
  refine ⟨by decide, by decide, by decide, by decide⟩

/-- **C3 (amended).** Whenever the send is blocked, the computed sleep is the
*minimum* of the three constraints' remaining times, floored at the 1000 ms
granularity — with the spacing term being the constant 3000 ms for group
recipients (operator precedence in `isGroup ? 3000 : 1000 - (...)`), and the
true remaining spacing only for direct recipients. -/
theorem waitTime_min_of_remaining (isGroup : Bool) (g : Nat) (l : RateLimit)
    (lastGlobalReset now : Int)
    (hblocked : sendBlocked isGroup g l now = true) :
    sourceWaitTime isGroup lastGlobalReset l.resetTime l.lastMessageTime now =
      max 1000
        (min (specRemainingGlobal lastGlobalReset now)
          (min (specRemainingChat isGroup l.resetTime now)
            (if isGroup then minDelayFor true
              else specRemainingSpacing false l.lastMessageTime now))) := by
  unfold sourceWaitTime specRemainingGlobal specRemainingChat
    specRemainingSpacing minDelayFor
  cases isGroup <;> rfl

/-- Witness for `waitTime_min_of_remaining`: a direct recipient whose chat
window is full. -/
theorem waitTime_min_of_remaining_witness :
    sendBlocked false 0 ⟨9800, 1, 9500, none⟩ 10000 = true ∧
    sourceWaitTime false 9900 9500 9800 10000 =
      max 1000
        (min (specRemainingGlobal 9900 10000)
          (min (specRemainingChat false 9500 10000)
            (if false then minDelayFor true
              else specRemainingSpacing false 9800 10000))) :=
  ⟨by decide,
    waitTime_min_of_remaining false 0 ⟨9800, 1, 9500, none⟩ 9900 10000
      (by decide)⟩

/-- The cooperative wait loop never travels back in time: each iteration
sleeps at least the 1000 ms floor. -/
theorem waitLoop_time_mono (isGroup : Bool) :
    ∀ (fuel : Nat) (w w2 : WaitCtx),
      waitLoop isGroup fuel w = some w2 → w.now ≤ w2.now := by
  intro fuel
  induction fuel with
  | zero =>
    intro w w2 h
    exact absurd h (by simp [waitLoop])
  | succ fuel ih =>
    intro w w2 h
    unfold waitLoop at h
    split_ifs at h with hb
    · have h2 : w.now + sourceWaitTime isGroup w.lastGlobalReset
          w.limit.resetTime w.limit.lastMessageTime w.now ≤ w2.now := ih _ _ h
      have hwt : (1000 : Int) ≤ sourceWaitTime isGroup w.lastGlobalReset
          w.limit.resetTime w.limit.lastMessageTime w.now := le_max_left _ _
      omega
    · cases h
      exact le_refl _

/-- If the recipient's record carries a non-zero `retryAfter` deadline, any
completed `waitForRateLimit` call finishes no earlier than that deadline. -/
theorem waitForRateLimit_retry_lower (fuel : Nat) (s : RateLimiterState)
    (chatId : Int) (isGroup : Bool) (now t : Int) (s2 : RateLimiterState)
    (l0 : RateLimit) (d : Int)
    (hl : jsLookup s.chatLimits chatId = some l0)
    (hra : l0.retryAfter = some d) (hd : d ≠ 0)
    (hrun : waitForRateLimit fuel s chatId isGroup now = some (t, s2)) :
    d ≤ t := by
  unfold waitForRateLimit at hrun
  rw [hl] at hrun
  simp only [Option.isSome_some, if_true, ite_true, eq_self_iff_true] at hrun
  rw [hl] at hrun
  simp only [Option.getD_some] at hrun
  rw [hra] at hrun
  dsimp only at hrun
  by_cases hn : now < d
  · have hcpos : d ≠ 0 ∧ now < d := ⟨hd, hn⟩
    rw [if_pos hcpos] at hrun
    dsimp only at hrun
    rcases Option.map_eq_some'.mp hrun with ⟨w, hw, hfw⟩
    have hnow : w.now = t := congrArg Prod.fst hfw
    have hdle : d ≤ w.now := waitLoop_time_mono isGroup fuel _ w hw
    omega
  · have hcond : ¬(d ≠ 0 ∧ now < d) := fun hc => hn hc.2
    rw [if_neg hcond] at hrun
    dsimp only at hrun
    rcases Option.map_eq_some'.mp hrun with ⟨w, hw, hfw⟩
    have hnow : w.now = t := congrArg Prod.fst hfw
    have hdle : now ≤ w.now := waitLoop_time_mono isGroup fuel _ w hw
    omega

/-- **C7 (counterexample).** `handleRateLimitError` for a recipient that has
never been awaited (no `chatLimits` record) is a no-op, so a subsequent
`waitForRateLimit` completes 1 s after the report — well before the 5 s
retry-after deadline. -/
theorem reportThrottled_no_entry_cex :
    handleRateLimitError ⟨[], 0, 1000000⟩ 7 5 1000000 = ⟨[], 0, 1000000⟩ ∧
    (waitForRateLimit 3 (handleRateLimitError ⟨[], 0, 1000000⟩ 7 5 1000000) 7
        false 1001000).map Prod.fst = some 1001000 ∧
    (1001000 : Int) < 1000000 + 5 * 1000 := by
  refine ⟨rfl, by decide, by decide⟩

/-- **C7 (amended).** For a recipient that already has a `chatLimits` record,
`handleRateLimitError` stamps the `retryAfter` deadline and forces
`messageCount` to `CHAT_LIMIT` (which fills a direct recipient's window,
though not a group's), and every subsequent `waitForRateLimit` call for that
recipient that completes does so no earlier than `retryAfterSeconds` seconds
after the report. -/
theorem reportThrottled_blocks_until_deadline (s : RateLimiterState) (r : Int)
    (sec t0 : Int) (l : RateLimit)
    (hentry : jsLookup s.chatLimits r = some l) (ht0 : 0 ≤ t0)
    (hsec : 0 < sec) :
    jsLookup (handleRateLimitError s r sec t0).chatLimits r =
      some { l with
        retryAfter := some (t0 + sec * 1000),
        messageCount := CHAT_LIMIT } ∧
    (∀ (fuel : Nat) (now : Int) (isGroup : Bool) (t : Int)
      (s2 : RateLimiterState),
      waitForRateLimit fuel (handleRateLimitError s r sec t0) r isGroup now =
        some (t, s2) → t0 + sec * 1000 ≤ t) := by
  have hs1 : jsLookup (handleRateLimitError s r sec t0).chatLimits r =
      some { l with
        retryAfter := some (t0 + sec * 1000),
        messageCount := CHAT_LIMIT } := by
    unfold handleRateLimitError
    rw [hentry]
    exact jsLookup_jsSet_self _ _ _
  refine ⟨hs1, ?_⟩
  intro fuel now isGroup t s2 hrun
  have hd : t0 + sec * 1000 ≠ 0 := by positivity
  exact waitForRateLimit_retry_lower fuel _ r isGroup now t s2 _ _ hs1 rfl hd
    hrun

/-- Witness for `reportThrottled_blocks_until_deadline`: a report of 5 s at
time 1000000 makes a later `waitForRateLimit` complete exactly at the
1005000 deadline. -/
theorem reportThrottled_blocks_until_deadline_witness :
    (waitForRateLimit 3 (handleRateLimitError ⟨[(7, ⟨0, 0, 0, none⟩)], 0, 0⟩ 7
        5 1000000) 7 false 1000500).map Prod.fst = some 1005000 ∧
    (1000000 + 5 * 1000 : Int) ≤ 1005000 := by
  constructor
  · decide
  · exact (reportThrottled_blocks_until_deadline
      ⟨[(7, ⟨0, 0, 0, none⟩)], 0, 0⟩ 7 5 1000000 ⟨0, 0, 0, none⟩ rfl
      (by decide) (by decide)).2 3 1000500 false 1005000
      ⟨[(7, ⟨1005000, 1, 1005000, none⟩)], 1, 1000500⟩ (by decide)

/-- Correctness of the fuel-based base-10 logarithm: with enough fuel it
brackets its input between consecutive powers of 10. -/
theorem natLog10Aux_bounds : ∀ (fuel n : Nat), 1 ≤ n → n ≤ fuel →
    10 ^ natLog10Aux fuel n ≤ n ∧ n < 10 ^ (natLog10Aux fuel n + 1) := by
  intro fuel
  induction fuel with
  | zero => intro n h1 h2; omega
  | succ fuel ih =>
    intro n h1 h2
    unfold natLog10Aux
    split_ifs with hlt
    · constructor
      · simpa using h1
      · simpa using hlt
    · push_neg at hlt
      have hd1 : 1 ≤ n / 10 := (Nat.one_le_div_iff (by norm_num)).mpr hlt
      have hd2 : n / 10 ≤ fuel := by omega
      rcases ih (n / 10) hd1 hd2 with ⟨ha, hb⟩
      constructor
      · have hs : 10 ^ (natLog10Aux fuel (n / 10) + 1) =
            10 ^ natLog10Aux fuel (n / 10) * 10 := pow_succ 10 _
        have h10 : 10 ^ natLog10Aux fuel (n / 10) * 10 ≤ (n / 10) * 10 :=
          Nat.mul_le_mul_right 10 ha
        have hdd : (n / 10) * 10 ≤ n := Nat.div_mul_le_self n 10
        omega
      · have hstep : n / 10 + 1 ≤ 10 ^ (natLog10Aux fuel (n / 10) + 1) := hb
        have h2l : (n / 10 + 1) * 10 ≤
            10 ^ (natLog10Aux fuel (n / 10) + 1) * 10 :=
          Nat.mul_le_mul_right 10 hstep
        have hps : 10 ^ (natLog10Aux fuel (n / 10) + 1) * 10 =
            10 ^ (natLog10Aux fuel (n / 10) + 1 + 1) := (pow_succ 10 _).symm
        omega

/-- `ratILog10` on `q ≥ 1` is the natural number `k` with
`10 ^ k ≤ q < 10 ^ (k + 1)`. -/
theorem ratILog10_bounds (q : Rat) (h : 1 ≤ q) :
    ∃ k : Nat, ratILog10 q = (k : Int) ∧ (10 : Rat) ^ k ≤ q ∧
      q < (10 : Rat) ^ (k + 1) := by
  have hfl : (1 : Int) ≤ ⌊q⌋ := by
    rw [Int.le_floor]
    exact_mod_cast h
  have hn : 1 ≤ ⌊q⌋.toNat := by omega
  have hnn : (0 : Int) ≤ ⌊q⌋ := by omega
  have hcast : ((⌊q⌋.toNat : Nat) : Rat) = (⌊q⌋ : Rat) := by
    have h0 : ((⌊q⌋.toNat : Int) : Rat) = (⌊q⌋ : Rat) := by
      rw [Int.toNat_of_nonneg hnn]
    rw [← h0]
    push_cast
    ring
  rcases natLog10Aux_bounds ⌊q⌋.toNat ⌊q⌋.toNat hn (le_refl _) with ⟨hl, hh⟩
  refine ⟨natLog10Aux ⌊q⌋.toNat ⌊q⌋.toNat, ?_, ?_, ?_⟩
  · unfold ratILog10
    rw [if_pos h]
  · calc (10 : Rat) ^ natLog10Aux ⌊q⌋.toNat ⌊q⌋.toNat
        = ((10 ^ natLog10Aux ⌊q⌋.toNat ⌊q⌋.toNat : Nat) : Rat) := by
          push_cast
          ring
      _ ≤ ((⌊q⌋.toNat : Nat) : Rat) := by exact_mod_cast hl
      _ = (⌊q⌋ : Rat) := hcast
      _ ≤ q := Int.floor_le q
  · have h2 : q < (⌊q⌋ : Rat) + 1 := Int.lt_floor_add_one q
    have h3 : ((⌊q⌋.toNat : Nat) : Rat) + 1 ≤
        ((10 ^ (natLog10Aux ⌊q⌋.toNat ⌊q⌋.toNat + 1) : Nat) : Rat) := by
      exact_mod_cast hh
    calc q < (⌊q⌋ : Rat) + 1 := h2
      _ = ((⌊q⌋.toNat : Nat) : Rat) + 1 := by rw [hcast]
      _ ≤ ((10 ^ (natLog10Aux ⌊q⌋.toNat ⌊q⌋.toNat + 1) : Nat) : Rat) := h3
      _ = (10 : Rat) ^ (natLog10Aux ⌊q⌋.toNat ⌊q⌋.toNat + 1) := by
          push_cast
          ring

/-- The suffix read off the suffix table (with the `|| ''` default) is one of
the five listed suffix strings. -/
theorem suffixes_getD_mem (m : Nat) : suffixes.getD m "" ∈ suffixes := by
  by_cases h : m < 5
  · interval_cases m <;> decide
  · rw [List.getD_eq_default]
    · decide
    · simpa [suffixes] using not_lt.mp h

/-- **C10.** `changeStyle` returns `"0"` on every `NaN` or infinite input;
on the finite input `0` it returns `"NaN"` (the `Math.log10 0 = -Infinity`
chain makes the scaled value `0 / 0 = NaN`); and on any finite input of
absolute value at least 1 it returns the input scaled by the power of 1000
bracketing its magnitude, rendered by `toFixed(2)`, followed by a suffix
from `['', 'K', 'M', 'B', 'T']`. -/
theorem changeStyle_spec :
    (changeStyle JSNum.nan = "0" ∧ changeStyle JSNum.inf = "0" ∧
      changeStyle JSNum.ninf = "0") ∧
    changeStyle (JSNum.fin 0) = "NaN" ∧
    (∀ q : Rat, 1 ≤ |q| →
      ∃ m : Nat, (1000 : Rat) ^ m ≤ |q| ∧ |q| < (1000 : Rat) ^ (m + 1) ∧
        changeStyle (JSNum.fin q) =
          jsToFixed2 (q / (1000 : Rat) ^ m) ++ suffixes.getD m "" ∧
        suffixes.getD m "" ∈ suffixes) := by
  refine ⟨⟨rfl, rfl, rfl⟩, by decide, ?_⟩
  intro q hq
  rcases ratILog10_bounds |q| hq with ⟨k, hk, hlow, hhigh⟩
  have hq0 : q ≠ 0 := by
    intro h0
    rw [h0] at hq
    norm_num at hq
  have hmag : jsMagnitude q = JSMagnitude.int ((k / 3 : Nat) : Int) := by
    unfold jsMagnitude
    rw [if_neg hq0, hk]
    congr 1
    rw [Int.fdiv_eq_div (Int.natCast_nonneg k) (by norm_num)]
    push_cast
    rfl
  have hpow : jsPow10Mag3 (JSMagnitude.int ((k / 3 : Nat) : Int)) =
      (1000 : Rat) ^ (k / 3) := by
    show (10 : Rat) ^ ((3 : Int) * ((k / 3 : Nat) : Int)) =
      (1000 : Rat) ^ (k / 3)
    have hc : (3 : Int) * ((k / 3 : Nat) : Int) =
        ((3 * (k / 3) : Nat) : Int) := by
      push_cast
      ring
    rw [hc, zpow_natCast, show (1000 : Rat) = 10 ^ 3 by norm_num, ← pow_mul]
  have hne : (1000 : Rat) ^ (k / 3) ≠ 0 := by positivity
  refine ⟨k / 3, ?_, ?_, ?_, suffixes_getD_mem _⟩
  · calc (1000 : Rat) ^ (k / 3)
        = (10 : Rat) ^ (3 * (k / 3)) := by
          rw [show (1000 : Rat) = 10 ^ 3 by norm_num, ← pow_mul]
      _ ≤ (10 : Rat) ^ k := by
          apply pow_le_pow_right (by norm_num)
          omega
      _ ≤ |q| := hlow
  · calc |q| < (10 : Rat) ^ (k + 1) := hhigh
      _ ≤ (10 : Rat) ^ (3 * (k / 3 + 1)) := by
          apply pow_le_pow_right (by norm_num)
          omega
      _ = (1000 : Rat) ^ (k / 3 + 1) := by
          rw [show (1000 : Rat) = 10 ^ 3 by norm_num, ← pow_mul]
  · show jsToFixed2N (jsDivNum q (jsPow10Mag3 (jsMagnitude q))) ++
        jsSuffixAt (jsMagnitude q) = _
    rw [hmag, hpow]
    have hsuf : jsSuffixAt (JSMagnitude.int ((k / 3 : Nat) : Int)) =
        suffixes.getD (k / 3) "" := by
      show (if ((k / 3 : Nat) : Int) < 0 then ""
        else suffixes.getD ((k / 3 : Nat) : Int).toNat "") =
        suffixes.getD (k / 3) ""
      rw [if_neg (not_lt.mpr (Int.natCast_nonneg (k / 3))),
        Int.toNat_natCast]
    rw [hsuf]
    unfold jsDivNum
    rw [if_neg hne]
    exact rfl

/-- Witness for `changeStyle_spec` at the finite input 1234. -/
theorem changeStyle_spec_witness :
    (1 : Rat) ≤ |(1234 : Rat)| ∧
    (∃ m : Nat, (1000 : Rat) ^ m ≤ |(1234 : Rat)| ∧
      |(1234 : Rat)| < (1000 : Rat) ^ (m + 1) ∧
      changeStyle (JSNum.fin 1234) =
        jsToFixed2 ((1234 : Rat) / (1000 : Rat) ^ m) ++ suffixes.getD m "" ∧
      suffixes.getD m "" ∈ suffixes) :=
  ⟨by norm_num, changeStyle_spec.2.2 1234 (by norm_num)⟩
